import Mathlib

/-!
Verification of the observation-extraction subsystem of the patched Ecole
repository. The binding surface (observation.cpp) declares the contracts;
the extraction logic itself is modelled from the specification, as noted on
each definition. Data is embedded exactly: rational numbers stand for the
numeric feature values, the propagating sentinel is an explicit value of the
feature-value type, and every extractor is a pure state-passing function.
-/

namespace Ecole

/-- Variable type of a MILP variable, as exposed by the model
(binary, integer, implicit integer, continuous one-hot flags in the
bipartite variable features). -/
inductive VarType where
  | binary
  | integer
  | implicitInteger
  | continuous
deriving DecidableEq, Repr

/-- LP basis status of a variable (one-hot encoded in the node bipartite
variable features). -/
inductive BasisStatus where
  | lower
  | basic
  | upper
  | zero
deriving DecidableEq, Repr

/-- Modelled from the spec: the static (episode-invariant) data of one
variable of the model. The extraction code reading it is not part of the
binding surface under src. The field probindex is the position of the
variable in the original problem (SCIPvarGetProbindex), obj its objective
coefficient, lb and ub its optional bounds, capacity and weight the
knapsack data used by the Capacity and Weight extractors, and
khalilStaticExtra the remaining literature static statistics
(row-degree and weighted-coefficient aggregates) that the spec lists
only by category. -/
structure VarStatic where
  probindex : Nat
  obj : ℚ
  vtype : VarType
  lb : Option ℚ
  ub : Option ℚ
  capacity : ℚ
  weight : ℚ
  khalilStaticExtra : List ℚ
deriving DecidableEq, Repr

/-- Modelled from the spec: the dynamic (per-call) data of one variable:
LP solution value, reduced cost, scaled age, incumbent statistics, basis
status, the solver-maintained pseudocost, the strong-branching score the
solver reports, and the literature dynamic statistics listed by the spec
only by category. -/
structure VarDyn where
  solutionValue : ℚ
  reducedCost : ℚ
  scaledAge : ℚ
  incumbentValue : ℚ
  avgIncumbentValue : ℚ
  basis : BasisStatus
  pseudocost : ℚ
  sbScore : ℚ
  khalilDynamic : List ℚ
deriving DecidableEq, Repr

/-- A variable of the model: static part plus dynamic part. -/
structure Variable where
  stat : VarStatic
  dyn : VarDyn
deriving DecidableEq, Repr

/-- Modelled from the spec: static data of one LP row: its dense
coefficient list (indexed by variable probindex), its bias and the cosine
similarity of the row with the objective. -/
structure RowStatic where
  coefs : List ℚ
  bias : ℚ
  objCosineSim : ℚ
deriving DecidableEq, Repr

/-- Modelled from the spec: dynamic data of one LP row: tightness flag,
dual solution value and scaled age. -/
structure RowDyn where
  isTight : Bool
  dualValue : ℚ
  scaledAge : ℚ
deriving DecidableEq, Repr

/-- An LP row of the model: static part plus dynamic part. -/
structure Row where
  stat : RowStatic
  dyn : RowDyn
deriving DecidableEq, Repr

/-- Focus node observation, with the fields bound in observation.cpp:
number, depth, lowerbound, estimate, n_added_conss, n_vars, nlpcands,
npseudocands, parent_number, parent_lowerbound. -/
structure FocusNodeObs where
  number : Int
  depth : Int
  lowerbound : ℚ
  estimate : ℚ
  n_added_conss : Nat
  n_vars : Nat
  nlpcands : Nat
  npseudocands : Nat
  parent_number : Int
  parent_lowerbound : ℚ
deriving DecidableEq, Repr

/-- Modelled from the spec: the read-only model exposed to extractors.
vars is the internal enumeration of variables (order arbitrary, possibly
different from probindex order), rows the LP rows in row-index order,
lpCands and pseudoCands the probindexes of the LP fractional and pseudo
branching candidates, focus the current focus-node snapshot, and
globalStats the remaining instance-level statistics the spec lists by
category. -/
structure Model where
  vars : List Variable
  rows : List Row
  lpCands : List Nat
  pseudoCands : List Nat
  focus : FocusNodeObs
  globalStats : List ℚ
deriving DecidableEq, Repr

/-- Number of variables of the model. -/
def Model.nVars (m : Model) : Nat := m.vars.length

/-- Number of LP rows of the model. -/
def Model.nRows (m : Model) : Nat := m.rows.length

/-- Well-formedness of a model, as guaranteed by the solver: the
probindexes of the variables are exactly the positions 0 .. n-1 of the
original problem, and every row has one dense coefficient per variable. -/
def Model.WF (m : Model) : Prop :=
  (m.vars.map (fun v => v.stat.probindex)).Perm (List.range m.vars.length) ∧
  ∀ r ∈ m.rows, r.stat.coefs.length = m.vars.length

instance (m : Model) : Decidable m.WF := by
  unfold Model.WF; infer_instance

/-- Placeholder variable used as the default of a lookup that cannot fail
on a well-formed model. -/
def defaultVariable : Variable :=
  ⟨⟨0, 0, VarType.continuous, none, none, 0, 0, []⟩,
   ⟨0, 0, 0, 0, 0, BasisStatus.basic, 0, 0, []⟩⟩

/-- Modelled from the spec: look up the variable with a given probindex in
the internal enumeration of the model. -/
def varAt (m : Model) (i : Nat) : Option Variable :=
  m.vars.find? (fun v => v.stat.probindex == i)

/-- Total version of the probindex lookup. -/
def varAtD (m : Model) (i : Nat) : Variable :=
  (varAt m i).getD defaultVariable

/-- Modelled from the spec: the entity index mapping over variables: the
list of the variables of the model reordered by original-problem position,
so that the variable at list position i has probindex i. Every
per-variable extractor emits its rows in this order. -/
def orderedVars (m : Model) : List Variable :=
  (List.range m.nVars).map (varAtD m)

/-- Two models agree on the static variable data (same variables of the
original problem, in the same internal enumeration order). -/
def sameStaticVars (m₁ m₂ : Model) : Prop :=
  m₁.vars.map Variable.stat = m₂.vars.map Variable.stat

/-- Two models agree on the static row data (no structural change to the
constraint set). -/
def sameStaticRows (m₁ m₂ : Model) : Prop :=
  m₁.rows.map Row.stat = m₂.rows.map Row.stat

/-- No structural change between two snapshots of the model within one
episode: static variable data and static row data agree. -/
def sameStatic (m₁ m₂ : Model) : Prop :=
  sameStaticVars m₁ m₂ ∧ sameStaticRows m₁ m₂

instance (m₁ m₂ : Model) : Decidable (sameStaticVars m₁ m₂) := by
  unfold sameStaticVars; infer_instance

instance (m₁ m₂ : Model) : Decidable (sameStaticRows m₁ m₂) := by
  unfold sameStaticRows; infer_instance

instance (m₁ m₂ : Model) : Decidable (sameStatic m₁ m₂) := by
  unfold sameStatic; infer_instance

/-- Feature value: either a numeric value or the propagating
not-applicable sentinel (IEEE-754 NaN in the implementation). -/
inductive EVal where
  | num (q : ℚ)
  | nan
deriving DecidableEq, Repr

/-- Equality test on feature values with IEEE-754 semantics: any
comparison involving the sentinel is false, in particular the sentinel is
not equal to itself. -/
def EVal.beq : EVal → EVal → Bool
  | EVal.num a, EVal.num b => a == b
  | _, _ => false

/-- Addition on feature values: the sentinel propagates. -/
def EVal.add : EVal → EVal → EVal
  | EVal.num a, EVal.num b => EVal.num (a + b)
  | _, _ => EVal.nan

/-- Multiplication on feature values: the sentinel propagates. -/
def EVal.mul : EVal → EVal → EVal
  | EVal.num a, EVal.num b => EVal.num (a * b)
  | _, _ => EVal.nan

/-- Pad or truncate a list to exactly k entries, filling with d. -/
def padWith {α : Type} (k : Nat) (d : α) (l : List α) : List α :=
  (l ++ List.replicate k d).take k

/-- Sparse matrix in the coordinate format, as bound in observation.cpp:
a vector of non-zero values, an index matrix with one row per dimension
and one column per non-zero, and the dense shape. -/
structure COOMatrix where
  values : List ℚ
  indices : List (List Nat)
  shape : List Nat
deriving DecidableEq, Repr

/-- Modelled from the spec: nnz returns the length of the value vector. -/
def COOMatrix.nnz (c : COOMatrix) : Nat := c.values.length

/-- Pickle encoding of the sparse matrix: the (values, indices, shape)
triple registered by def_auto_pickle in observation.cpp. -/
def COOMatrix.encode (c : COOMatrix) : List ℚ × List (List Nat) × List Nat :=
  (c.values, c.indices, c.shape)

/-- Pickle decoding of the sparse matrix from its field triple. -/
def COOMatrix.decode (t : List ℚ × List (List Nat) × List Nat) : COOMatrix :=
  ⟨t.1, t.2.1, t.2.2⟩

/-- Value-based copy of the sparse matrix (def_auto_copy). -/
def COOMatrix.copy (c : COOMatrix) : COOMatrix :=
  ⟨c.values, c.indices, c.shape⟩

/-- Replace the value vector of a sparse matrix (the mutation offered by
the readwrite binding of the values field). -/
def COOMatrix.setValues (c : COOMatrix) (v : List ℚ) : COOMatrix :=
  ⟨v, c.indices, c.shape⟩

/-- Mutation scenario for copy independence: keep the original next to a
copy whose value vector was overwritten. -/
def COOMatrix.copyThenMutate (c : COOMatrix) (v : List ℚ) : COOMatrix × COOMatrix :=
  (c, c.copy.setValues v)

/-- The sparse matrix has an entry with value c at coordinates (i, j):
some column k of the index matrix holds (i, j) and the value vector holds
c at the same position k. -/
def COOMatrix.hasEntry (co : COOMatrix) (i j : Nat) (c : ℚ) : Prop :=
  ∃ k : Nat, co.values[k]? = some c ∧
    (co.indices[0]?.bind (fun l : List Nat => l[k]?)) = some i ∧
    (co.indices[1]?.bind (fun l : List Nat => l[k]?)) = some j

/-- Modelled from the spec: the non-zero triples (row index, variable
index, coefficient) contributed by one row. -/
def rowTriples (i : Nat) (r : Row) : List (Nat × Nat × ℚ) :=
  (r.stat.coefs.enum.filter (fun p => p.2 ≠ 0)).map (fun p => (i, p.1, p.2))

/-- Modelled from the spec: all non-zero (row, variable, coefficient)
triples of the constraint matrix of the model. -/
def edgeTriples (m : Model) : List (Nat × Nat × ℚ) :=
  m.rows.enum.flatMap (fun p => rowTriples p.1 p.2)

/-- Modelled from the spec: the sparse edge matrix of the bipartite
builders, holding one column per non-zero coefficient of the constraint
matrix, with the row index in dimension 0 and the variable index in
dimension 1. -/
def buildEdgeMatrix (m : Model) : COOMatrix :=
  ⟨(edgeTriples m).map (fun t => t.2.2),
   [(edgeTriples m).map (fun t => t.1), (edgeTriples m).map (fun t => t.2.1)],
   [m.nRows, m.nVars]⟩

/-- Encode a boolean flag as a 0/1 feature value. -/
def b2q (b : Bool) : ℚ := if b then 1 else 0

/-- Fractional part of an LP solution value. -/
def fracPart (q : ℚ) : ℚ := q - (⌊q⌋ : ℚ)

/-- Modelled from the spec: the static slice of the node-bipartite
variable features (objective coefficient, variable-type one-hot flags,
bound-presence flags): the columns cached when caching is enabled. -/
def nodeVarStatic (v : Variable) : List ℚ :=
  [v.stat.obj,
   b2q (v.stat.vtype = VarType.binary),
   b2q (v.stat.vtype = VarType.integer),
   b2q (v.stat.vtype = VarType.implicitInteger),
   b2q (v.stat.vtype = VarType.continuous),
   b2q v.stat.lb.isSome,
   b2q v.stat.ub.isSome]

/-- Modelled from the spec: the dynamic slice of the node-bipartite
variable features (reduced cost, LP solution value and fractional part,
solution-at-bound flags, scaled age, incumbent statistics, basis one-hot),
recomputed on every call. -/
def nodeVarDynamic (v : Variable) : List ℚ :=
  [v.dyn.reducedCost,
   v.dyn.solutionValue,
   fracPart v.dyn.solutionValue,
   b2q (v.stat.lb = some v.dyn.solutionValue),
   b2q (v.stat.ub = some v.dyn.solutionValue),
   v.dyn.scaledAge,
   v.dyn.incumbentValue,
   v.dyn.avgIncumbentValue,
   b2q (v.dyn.basis = BasisStatus.lower),
   b2q (v.dyn.basis = BasisStatus.basic),
   b2q (v.dyn.basis = BasisStatus.upper),
   b2q (v.dyn.basis = BasisStatus.zero)]

/-- Modelled from the spec: the static slice of the node-bipartite row
features (bias, objective cosine similarity). -/
def nodeRowStatic (r : Row) : List ℚ :=
  [r.stat.bias, r.stat.objCosineSim]

/-- Modelled from the spec: the dynamic slice of the node-bipartite row
features (tightness flag, dual solution value, scaled age). -/
def nodeRowDynamic (r : Row) : List ℚ :=
  [b2q r.dyn.isTight, r.dyn.dualValue, r.dyn.scaledAge]

/-- Full node-bipartite variable feature row: static columns followed by
dynamic columns, in the order of the VariableFeatures enumeration. -/
def nodeVarRow (v : Variable) : List ℚ :=
  nodeVarStatic v ++ nodeVarDynamic v

/-- Full node-bipartite row feature row: static columns followed by
dynamic columns, in the order of the RowFeatures enumeration. -/
def nodeRowRow (r : Row) : List ℚ :=
  nodeRowStatic r ++ nodeRowDynamic r

/-- Node bipartite observation: variable feature matrix, row feature
matrix and the sparse edge matrix, as bound in observation.cpp. -/
structure NodeBipartiteObs where
  variable_features : List (List ℚ)
  row_features : List (List ℚ)
  edge_features : COOMatrix
deriving DecidableEq, Repr

/-- Static variable-feature matrix, one row per variable in entity index
order. -/
def nodeVarStaticMatrix (m : Model) : List (List ℚ) :=
  (orderedVars m).map nodeVarStatic

/-- Dynamic variable-feature matrix, one row per variable in entity index
order. -/
def nodeVarDynamicMatrix (m : Model) : List (List ℚ) :=
  (orderedVars m).map nodeVarDynamic

/-- Static row-feature matrix, one row per LP row. -/
def nodeRowStaticMatrix (m : Model) : List (List ℚ) :=
  m.rows.map nodeRowStatic

/-- Dynamic row-feature matrix, one row per LP row. -/
def nodeRowDynamicMatrix (m : Model) : List (List ℚ) :=
  m.rows.map nodeRowDynamic

/-- Usage-sequence error raised by an extraction call. -/
inductive ExtractError where
  | extractBeforeReset
deriving DecidableEq, Repr

/-- State of the NodeBipartite observation function: the cache flag of the
constructor, whether before_reset has been called, and the static feature
matrices cached on reset when caching is enabled. -/
structure NodeBipartite where
  use_cache : Bool
  hasReset : Bool
  varStaticCache : Option (List (List ℚ))
  rowStaticCache : Option (List (List ℚ))
deriving DecidableEq, Repr

/-- A freshly constructed NodeBipartite observation function. -/
def NodeBipartite.new (cache : Bool) : NodeBipartite :=
  ⟨cache, false, none, none⟩

/-- The cache argument of the NodeBipartite constructor defaults to false
in observation.cpp. -/
def NodeBipartite.newDefault : NodeBipartite := NodeBipartite.new false

/-- Modelled from the spec: on episode start, cache the static feature
matrices when caching is enabled. -/
def NodeBipartite.before_reset (e : NodeBipartite) (m : Model) : NodeBipartite :=
  ⟨e.use_cache, true,
   if e.use_cache then some (nodeVarStaticMatrix m) else none,
   if e.use_cache then some (nodeRowStaticMatrix m) else none⟩

/-- Modelled from the spec: assemble the node bipartite observation,
taking the static columns from the cache when present and recomputing them
otherwise, and recomputing the dynamic columns on every call. -/
def NodeBipartite.extractObs (e : NodeBipartite) (m : Model) : NodeBipartiteObs :=
  ⟨List.zipWith (fun a b => a ++ b) (e.varStaticCache.getD (nodeVarStaticMatrix m))
     (nodeVarDynamicMatrix m),
   List.zipWith (fun a b => a ++ b) (e.rowStaticCache.getD (nodeRowStaticMatrix m))
     (nodeRowDynamicMatrix m),
   buildEdgeMatrix m⟩

/-- Modelled from the spec: extraction is only valid after reset. -/
def NodeBipartite.extract (e : NodeBipartite) (m : Model) (done : Bool) :
    Except ExtractError NodeBipartiteObs :=
  if e.hasReset then Except.ok (e.extractObs m) else Except.error ExtractError.extractBeforeReset

/-- MILP bipartite observation: variable feature matrix, constraint
feature matrix and the sparse edge matrix, as bound in observation.cpp. -/
structure MilpBipartiteObs where
  variable_features : List (List ℚ)
  constraint_features : List (List ℚ)
  edge_features : COOMatrix
deriving DecidableEq, Repr

/-- Modelled from the spec: MILP bipartite variable features (objective,
type one-hot, bound-presence flags, explicit bound values). -/
def milpVarRow (v : Variable) : List ℚ :=
  [v.stat.obj,
   b2q (v.stat.vtype = VarType.binary),
   b2q (v.stat.vtype = VarType.integer),
   b2q (v.stat.vtype = VarType.implicitInteger),
   b2q (v.stat.vtype = VarType.continuous),
   b2q v.stat.lb.isSome,
   b2q v.stat.ub.isSome,
   v.stat.lb.getD 0,
   v.stat.ub.getD 0]

/-- Modelled from the spec: MILP bipartite constraint features (bias). -/
def milpConsRow (r : Row) : List ℚ := [r.stat.bias]

/-- Largest absolute value of a feature matrix. -/
def matAbsMax (M : List (List ℚ)) : ℚ :=
  (M.flatMap (fun r => r.map (fun q => |q|))).foldr max 0

/-- Modelled from the spec: optional rescaling of the feature columns of
the MILP bipartite observation; it preserves the matrix dimensions. -/
def normalizeMatrix (M : List (List ℚ)) : List (List ℚ) :=
  M.map (fun r => r.map (fun q => q / (1 + matAbsMax M)))

/-- State of the MilpBipartite observation function: the normalize flag of
the constructor and whether before_reset has been called. -/
structure MilpBipartite where
  normalize : Bool
  hasReset : Bool
deriving DecidableEq, Repr

/-- A freshly constructed MilpBipartite observation function. -/
def MilpBipartite.new (normalize : Bool) : MilpBipartite := ⟨normalize, false⟩

/-- The normalize argument of the MilpBipartite constructor defaults to
false in observation.cpp. -/
def MilpBipartite.newDefault : MilpBipartite := MilpBipartite.new false

/-- The before_reset hook of MilpBipartite does nothing. -/
def MilpBipartite.before_reset (e : MilpBipartite) (_ : Model) : MilpBipartite :=
  ⟨e.normalize, true⟩

/-- Modelled from the spec: assemble the MILP bipartite observation from
scratch on every call, optionally normalizing the feature matrices. -/
def MilpBipartite.extractObs (e : MilpBipartite) (m : Model) : MilpBipartiteObs :=
  let varM := (orderedVars m).map milpVarRow
  let consM := m.rows.map milpConsRow
  ⟨if e.normalize then normalizeMatrix varM else varM,
   if e.normalize then normalizeMatrix consM else consM,
   buildEdgeMatrix m⟩

/-- Modelled from the spec: extraction is only valid after reset. -/
def MilpBipartite.extract (e : MilpBipartite) (m : Model) (done : Bool) :
    Except ExtractError MilpBipartiteObs :=
  if e.hasReset then Except.ok (e.extractObs m) else Except.error ExtractError.extractBeforeReset

/-- Modelled from the spec: the candidate set selected by the
pseudo_candidates flag: pseudo branching candidates when true, LP
fractional branching candidates when false. -/
def candidateSet (pseudo : Bool) (m : Model) : List Nat :=
  if pseudo then m.pseudoCands else m.lpCands

/-- Modelled from the spec: a per-variable score vector in entity index
order where every variable outside the candidate set is filled with the
sentinel. -/
def scoresVector (cands : List Nat) (score : Variable → ℚ) (m : Model) : List EVal :=
  (orderedVars m).map (fun v =>
    if v.stat.probindex ∈ cands then EVal.num (score v) else EVal.nan)

/-- State of the StrongBranchingScores observation function. -/
structure StrongBranchingScores where
  pseudo_candidates : Bool
  hasReset : Bool
deriving DecidableEq, Repr

/-- A freshly constructed StrongBranchingScores observation function. -/
def StrongBranchingScores.new (pseudo : Bool) : StrongBranchingScores := ⟨pseudo, false⟩

/-- The pseudo_candidates argument of the StrongBranchingScores
constructor defaults to false in observation.cpp. -/
def StrongBranchingScores.newDefault : StrongBranchingScores := StrongBranchingScores.new false

/-- The before_reset hook of StrongBranchingScores does nothing. -/
def StrongBranchingScores.before_reset (e : StrongBranchingScores) (_ : Model) :
    StrongBranchingScores :=
  ⟨e.pseudo_candidates, true⟩

/-- Modelled from the spec: strong branching scores for the selected
candidate set, sentinel elsewhere, recomputed fully on every call. -/
def StrongBranchingScores.extractObs (e : StrongBranchingScores) (m : Model) : List EVal :=
  scoresVector (candidateSet e.pseudo_candidates m) (fun v => v.dyn.sbScore) m

/-- Modelled from the spec: extraction is only valid after reset. -/
def StrongBranchingScores.extract (e : StrongBranchingScores) (m : Model) (done : Bool) :
    Except ExtractError (List EVal) :=
  if e.hasReset then Except.ok (e.extractObs m) else Except.error ExtractError.extractBeforeReset

/-- State of the Pseudocosts observation function. -/
structure Pseudocosts where
  hasReset : Bool
deriving DecidableEq, Repr

/-- A freshly constructed Pseudocosts observation function. -/
def Pseudocosts.new : Pseudocosts := ⟨false⟩

/-- The before_reset hook of Pseudocosts does nothing. -/
def Pseudocosts.before_reset (e : Pseudocosts) (_ : Model) : Pseudocosts := ⟨true⟩

/-- Modelled from the spec: pseudocosts for the LP fractional candidate
variables, sentinel elsewhere. -/
def Pseudocosts.extractObs (e : Pseudocosts) (m : Model) : List EVal :=
  scoresVector m.lpCands (fun v => v.dyn.pseudocost) m

/-- Modelled from the spec: extraction is only valid after reset. -/
def Pseudocosts.extract (e : Pseudocosts) (m : Model) (done : Bool) :
    Except ExtractError (List EVal) :=
  if e.hasReset then Except.ok (e.extractObs m) else Except.error ExtractError.extractBeforeReset

/-- Khalil observation: a feature matrix with one row per variable, as
bound in observation.cpp. -/
structure Khalil2016Obs where
  features : List (List EVal)
deriving DecidableEq, Repr

/-- The number of static feature columns declared by Khalil2016Obs: the 18
enumerators obj_coef through rows_neg_coefs_max in observation.cpp. -/
def Khalil2016Obs.n_static_features : Nat := 18

/-- The number of dynamic feature columns declared by Khalil2016Obs: the
54 enumerators slack through active_coef_weight4_max in observation.cpp. -/
def Khalil2016Obs.n_dynamic_features : Nat := 54

/-- Positive part of a rational number. -/
def posPart (q : ℚ) : ℚ := max q 0

/-- Negative part of a rational number. -/
def negPart (q : ℚ) : ℚ := max (-q) 0

/-- Number of rows in which the variable with probindex j has a non-zero
coefficient. -/
def varDegree (m : Model) (j : Nat) : Nat :=
  (m.rows.filter (fun r => decide (r.stat.coefs.getD j 0 ≠ 0))).length

/-- Modelled from the spec: the static feature row of one variable
(objective coefficient and its positive and negative parts, number of
rows, then the remaining static statistics the spec lists by category,
sentinel-padded to exactly 18 columns). -/
def khalilStaticRow (m : Model) (v : Variable) : List EVal :=
  [EVal.num v.stat.obj,
   EVal.num (posPart v.stat.obj),
   EVal.num (negPart v.stat.obj),
   EVal.num (varDegree m v.stat.probindex : ℚ)] ++
  padWith 14 EVal.nan (v.stat.khalilStaticExtra.map EVal.num)

/-- Modelled from the spec: the dynamic feature row of one variable, the
statistics the spec lists by category, sentinel-padded to exactly 54
columns. -/
def khalilDynRow (v : Variable) : List EVal :=
  padWith 54 EVal.nan (v.dyn.khalilDynamic.map EVal.num)

/-- Static Khalil feature matrix in entity index order, computed on
reset. -/
def khalilStaticMatrix (m : Model) : List (List EVal) :=
  (orderedVars m).map (khalilStaticRow m)

/-- State of the Khalil2016 observation function: the pseudo_candidates
flag of the constructor, whether before_reset has been called, and the
static feature matrix cached on reset. -/
structure Khalil2016 where
  pseudo_candidates : Bool
  hasReset : Bool
  staticCache : List (List EVal)
deriving DecidableEq, Repr

/-- A freshly constructed Khalil2016 observation function. -/
def Khalil2016.new (pseudo : Bool) : Khalil2016 := ⟨pseudo, false, []⟩

/-- The pseudo_candidates argument of the Khalil2016 constructor defaults
to false in observation.cpp. -/
def Khalil2016.newDefault : Khalil2016 := Khalil2016.new false

/-- Modelled from the spec: reset the static features cache on episode
start. -/
def Khalil2016.before_reset (e : Khalil2016) (m : Model) : Khalil2016 :=
  ⟨e.pseudo_candidates, true, khalilStaticMatrix m⟩

/-- Modelled from the spec: assemble the Khalil feature matrix: for each
candidate variable, the cached static row followed by the freshly computed
dynamic row; full sentinel rows for every other variable. -/
def Khalil2016.extractObs (e : Khalil2016) (m : Model) : Khalil2016Obs :=
  ⟨(List.range m.nVars).map (fun i =>
    if i ∈ candidateSet e.pseudo_candidates m then
      (e.staticCache.getD i (List.replicate 18 EVal.nan)) ++ khalilDynRow (varAtD m i)
    else List.replicate 72 EVal.nan)⟩

/-- Modelled from the spec: extraction is only valid after reset. -/
def Khalil2016.extract (e : Khalil2016) (m : Model) (done : Bool) :
    Except ExtractError Khalil2016Obs :=
  if e.hasReset then Except.ok (e.extractObs m) else Except.error ExtractError.extractBeforeReset

/-- Pickle encoding of Khalil2016Obs: the features field registered by
def_auto_pickle. -/
def Khalil2016Obs.encode (o : Khalil2016Obs) : List (List EVal) := o.features

/-- Pickle decoding of Khalil2016Obs. -/
def Khalil2016Obs.decode (f : List (List EVal)) : Khalil2016Obs := ⟨f⟩

/-- Value-based copy of Khalil2016Obs (def_auto_copy). -/
def Khalil2016Obs.copy (o : Khalil2016Obs) : Khalil2016Obs := ⟨o.features⟩

/-- Hutter instance-feature observation, as bound in observation.cpp. -/
structure Hutter2011Obs where
  features : List ℚ
deriving DecidableEq, Repr

/-- Modelled from the spec: the instance-level feature vector: counts of
variables, constraints and non-zero coefficients, then the remaining
global statistics the spec lists by category, padded to a fixed length of
33 columns. -/
def hutterFeatures (m : Model) : List ℚ :=
  [(m.nVars : ℚ), (m.nRows : ℚ), ((edgeTriples m).length : ℚ)] ++
  padWith 30 0 m.globalStats

/-- State of the Hutter2011 observation function. -/
structure Hutter2011 where
  hasReset : Bool
deriving DecidableEq, Repr

/-- A freshly constructed Hutter2011 observation function. -/
def Hutter2011.new : Hutter2011 := ⟨false⟩

/-- The before_reset hook of Hutter2011 does nothing. -/
def Hutter2011.before_reset (e : Hutter2011) (_ : Model) : Hutter2011 := ⟨true⟩

/-- Modelled from the spec: compute the instance features fresh on every
call. -/
def Hutter2011.extractObs (e : Hutter2011) (m : Model) : Hutter2011Obs :=
  ⟨hutterFeatures m⟩

/-- Modelled from the spec: extraction is only valid after reset. -/
def Hutter2011.extract (e : Hutter2011) (m : Model) (done : Bool) :
    Except ExtractError Hutter2011Obs :=
  if e.hasReset then Except.ok (e.extractObs m) else Except.error ExtractError.extractBeforeReset

/-- Pickle encoding of Hutter2011Obs: the features field registered by
def_auto_pickle. -/
def Hutter2011Obs.encode (o : Hutter2011Obs) : List ℚ := o.features

/-- Pickle decoding of Hutter2011Obs. -/
def Hutter2011Obs.decode (f : List ℚ) : Hutter2011Obs := ⟨f⟩

/-- Value-based copy of Hutter2011Obs (def_auto_copy). -/
def Hutter2011Obs.copy (o : Hutter2011Obs) : Hutter2011Obs := ⟨o.features⟩

/-- State of the FocusNode observation function. -/
structure FocusNode where
  hasReset : Bool
deriving DecidableEq, Repr

/-- A freshly constructed FocusNode observation function. -/
def FocusNode.new : FocusNode := ⟨false⟩

/-- The before_reset hook of FocusNode does nothing. -/
def FocusNode.before_reset (e : FocusNode) (_ : Model) : FocusNode := ⟨true⟩

/-- Modelled from the spec: extraction returns a read-only snapshot of the
current focus node. -/
def FocusNode.extract (e : FocusNode) (m : Model) (done : Bool) :
    Except ExtractError FocusNodeObs :=
  if e.hasReset then Except.ok m.focus else Except.error ExtractError.extractBeforeReset

/-- State of the Capacity observation function. -/
structure Capacity where
  hasReset : Bool
deriving DecidableEq, Repr

/-- A freshly constructed Capacity observation function. -/
def Capacity.new : Capacity := ⟨false⟩

/-- The before_reset hook of Capacity does nothing. -/
def Capacity.before_reset (e : Capacity) (_ : Model) : Capacity := ⟨true⟩

/-- Modelled from the spec: one knapsack capacity value per variable, in
entity index order, no candidate filtering and no sentinel. -/
def Capacity.extract (e : Capacity) (m : Model) (done : Bool) :
    Except ExtractError (List ℚ) :=
  if e.hasReset then Except.ok ((orderedVars m).map (fun v => v.stat.capacity))
  else Except.error ExtractError.extractBeforeReset

/-- State of the Weight observation function. -/
structure Weight where
  hasReset : Bool
deriving DecidableEq, Repr

/-- A freshly constructed Weight observation function. -/
def Weight.new : Weight := ⟨false⟩

/-- The before_reset hook of Weight does nothing. -/
def Weight.before_reset (e : Weight) (_ : Model) : Weight := ⟨true⟩

/-- Modelled from the spec: one item weight value per variable, in entity
index order, no candidate filtering and no sentinel. -/
def Weight.extract (e : Weight) (m : Model) (done : Bool) :
    Except ExtractError (List ℚ) :=
  if e.hasReset then Except.ok ((orderedVars m).map (fun v => v.stat.weight))
  else Except.error ExtractError.extractBeforeReset

/-- State of the Nothing observation function. -/
structure Nothing where
  hasReset : Bool
deriving DecidableEq, Repr

/-- A freshly constructed Nothing observation function. -/
def Nothing.new : Nothing := ⟨false⟩

/-- The before_reset hook of Nothing does nothing. -/
def Nothing.before_reset (e : Nothing) (_ : Model) : Nothing := ⟨true⟩

/-- Modelled from the spec: the null extractor returns the empty
observation. -/
def Nothing.extract (e : Nothing) (m : Model) (done : Bool) : Except ExtractError Unit :=
  if e.hasReset then Except.ok () else Except.error ExtractError.extractBeforeReset

/-- Pickle encoding of NodeBipartiteObs: the field triple registered by
def_auto_pickle in observation.cpp. -/
def NodeBipartiteObs.encode (o : NodeBipartiteObs) :
    List (List ℚ) × List (List ℚ) × COOMatrix :=
  (o.variable_features, o.row_features, o.edge_features)

/-- Pickle decoding of NodeBipartiteObs. -/
def NodeBipartiteObs.decode (t : List (List ℚ) × List (List ℚ) × COOMatrix) :
    NodeBipartiteObs :=
  ⟨t.1, t.2.1, t.2.2⟩

/-- Value-based copy of NodeBipartiteObs (def_auto_copy). -/
def NodeBipartiteObs.copy (o : NodeBipartiteObs) : NodeBipartiteObs :=
  ⟨o.variable_features, o.row_features, o.edge_features⟩

/-- Pickle encoding of MilpBipartiteObs: the field triple registered by
def_auto_pickle in observation.cpp. -/
def MilpBipartiteObs.encode (o : MilpBipartiteObs) :
    List (List ℚ) × List (List ℚ) × COOMatrix :=
  (o.variable_features, o.constraint_features, o.edge_features)

/-- Pickle decoding of MilpBipartiteObs. -/
def MilpBipartiteObs.decode (t : List (List ℚ) × List (List ℚ) × COOMatrix) :
    MilpBipartiteObs :=
  ⟨t.1, t.2.1, t.2.2⟩

/-- Value-based copy of MilpBipartiteObs (def_auto_copy). -/
def MilpBipartiteObs.copy (o : MilpBipartiteObs) : MilpBipartiteObs :=
  ⟨o.variable_features, o.constraint_features, o.edge_features⟩

/-- Class bindings registered by bind_submodule in observation.cpp for the
observation value types and the sparse matrix type: whether def_auto_copy
and def_auto_pickle were applied, and the pickled fields. FocusNodeObs is
bound with a plain class and read-only properties only: neither
def_auto_copy nor def_auto_pickle is applied to it. -/
structure ClassBinding where
  className : String
  has_auto_copy : Bool
  has_auto_pickle : Bool
  pickle_fields : List String
deriving DecidableEq, Repr

/-- The observation value classes and the sparse matrix class bound in
bind_submodule, in source order. -/
def bindSubmoduleClasses : List ClassBinding :=
  [⟨"coo_matrix", true, true, ["values", "indices", "shape"]⟩,
   ⟨"NodeBipartiteObs", true, true, ["variable_features", "row_features", "edge_features"]⟩,
   ⟨"MilpBipartiteObs", true, true, ["variable_features", "constraint_features", "edge_features"]⟩,
   ⟨"Khalil2016Obs", true, true, ["features"]⟩,
   ⟨"Hutter2011Obs", true, true, ["features"]⟩,
   ⟨"FocusNodeObs", false, false, []⟩]

/-- Static columns of the node bipartite variable-feature matrix. -/
def staticVarSlice (o : NodeBipartiteObs) : List (List ℚ) :=
  o.variable_features.map (List.take 7)

/-- Static columns of the node bipartite row-feature matrix. -/
def staticRowSlice (o : NodeBipartiteObs) : List (List ℚ) :=
  o.row_features.map (List.take 2)

/-- Static data of an example variable at probindex 0 of the example
model. -/
def exVarStat0 : VarStatic := ⟨0, 1, VarType.binary, some 0, some 1, 5, 2, [1, 2]⟩

/-- Static data of an example variable at probindex 1 of the example
model. -/
def exVarStat1 : VarStatic := ⟨1, -2, VarType.continuous, some 0, none, 5, 3, []⟩

/-- Dynamic data of the example variable at probindex 0. -/
def exDyn0 : VarDyn := ⟨2, 0, 0, 1, 1, BasisStatus.basic, 3, 7, [1]⟩

/-- Dynamic data of the example variable at probindex 1. -/
def exDyn1 : VarDyn := ⟨1, 0, 0, 0, 0, BasisStatus.lower, 2, 4, []⟩

/-- Alternative dynamic data for the example variable at probindex 0, used
as a later snapshot within the same episode. -/
def exDyn0b : VarDyn := ⟨4, 1, 1, 2, 2, BasisStatus.upper, 5, 9, [2]⟩

/-- Example focus node snapshot. -/
def exFocus : FocusNodeObs := ⟨1, 0, 0, 0, 0, 2, 1, 2, 0, 0⟩

/-- Example model with two variables listed out of probindex order and one
row with two non-zero coefficients. -/
def exModel : Model :=
  ⟨[⟨exVarStat1, exDyn1⟩, ⟨exVarStat0, exDyn0⟩],
   [⟨⟨[3, 4], 5, 0⟩, ⟨true, 1, 0⟩⟩],
   [0], [0, 1], exFocus, [2]⟩

/-- A later snapshot of the example model within the same episode: the
static data is unchanged, the dynamic data and the candidate sets
differ. -/
def exModel2 : Model :=
  ⟨[⟨exVarStat1, exDyn1⟩, ⟨exVarStat0, exDyn0b⟩],
   [⟨⟨[3, 4], 5, 0⟩, ⟨false, 2, 1⟩⟩],
   [1], [1], exFocus, [3]⟩

theorem varAt_spec {m : Model} (hwf : m.WF) {i : Nat} (hi : i < m.nVars) :
    ∃ w, varAt m i = some w ∧ w ∈ m.vars ∧ w.stat.probindex = i := by
  have hmem : i ∈ m.vars.map (fun v => v.stat.probindex) := by
    have hr : i ∈ List.range m.vars.length := List.mem_range.mpr hi
    exact (hwf.1.mem_iff).mpr hr
  obtain ⟨v, hv, hpi⟩ := List.mem_map.mp hmem
  have hsome : (varAt m i).isSome := by
    apply List.find?_isSome.mpr
    exact ⟨v, hv, by simp [hpi]⟩
  obtain ⟨w, hw⟩ := Option.isSome_iff_exists.mp hsome
  refine ⟨w, hw, List.mem_of_find?_eq_some hw, ?_⟩
  have hp := List.find?_some hw
  simpa using hp

theorem varAtD_mem {m : Model} (hwf : m.WF) {i : Nat} (hi : i < m.nVars) :
    varAtD m i ∈ m.vars ∧ (varAtD m i).stat.probindex = i := by
  obtain ⟨w, hw, hmem, hpi⟩ := varAt_spec hwf hi
  simp [varAtD, hw, hmem, hpi]

theorem length_orderedVars (m : Model) : (orderedVars m).length = m.nVars := by
  simp [orderedVars]

theorem orderedVars_getElem? (m : Model) {i : Nat} (hi : i < m.nVars) :
    (orderedVars m)[i]? = some (varAtD m i) := by
  simp [orderedVars, List.getElem?_map, List.getElem?_range hi]

theorem orderedVars_map_probindex {m : Model} (hwf : m.WF) :
    (orderedVars m).map (fun v => v.stat.probindex) = List.range m.nVars := by
  unfold orderedVars
  rw [List.map_map]
  have hcg : ∀ i ∈ List.range m.nVars,
      ((fun v : Variable => v.stat.probindex) ∘ varAtD m) i = id i := by
    intro i hi
    exact (varAtD_mem hwf (List.mem_range.mp hi)).2
  rw [List.map_congr_left hcg, List.map_id]

theorem orderedVars_perm {m : Model} (hwf : m.WF) : (orderedVars m).Perm m.vars := by
  have hnd : (orderedVars m).Nodup := by
    apply List.Nodup.of_map (fun v : Variable => v.stat.probindex)
    rw [orderedVars_map_probindex hwf]
    exact List.nodup_range m.nVars
  have hsub : orderedVars m ⊆ m.vars := by
    intro v hv
    obtain ⟨i, hi, hvi⟩ := List.mem_map.mp hv
    rw [← hvi]
    exact (varAtD_mem hwf (List.mem_range.mp hi)).1
  have hlen : m.vars.length ≤ (orderedVars m).length := by
    rw [length_orderedVars]
    exact Nat.le_refl _
  exact (List.subperm_of_subset hnd hsub).perm_of_length_le hlen

theorem find?_map_congr {α β : Type} (f : α → β) (q : β → Bool) :
    ∀ (l₁ l₂ : List α), l₁.map f = l₂.map f →
    ((l₁.find? fun a => q (f a)).map f) = ((l₂.find? fun a => q (f a)).map f) := by
  intro l₁
  induction l₁ with
  | nil =>
    intro l₂ h
    cases l₂ with
    | nil => rfl
    | cons b t₂ => simp at h
  | cons a t ih =>
    intro l₂ h
    cases l₂ with
    | nil => simp at h
    | cons b t₂ =>
      simp only [List.map_cons, List.cons.injEq] at h
      obtain ⟨hab, ht⟩ := h
      by_cases hq : q (f a) = true
      · have e1 : List.find? (fun x => q (f x)) (a :: t) = some a :=
          List.find?_cons_of_pos t hq
        have e2 : List.find? (fun x => q (f x)) (b :: t₂) = some b :=
          List.find?_cons_of_pos t₂ (by rw [← hab]; exact hq)
        rw [e1, e2]
        simp [hab]
      · have e1 : List.find? (fun x => q (f x)) (a :: t) = List.find? (fun x => q (f x)) t :=
          List.find?_cons_of_neg t hq
        have e2 : List.find? (fun x => q (f x)) (b :: t₂) = List.find? (fun x => q (f x)) t₂ :=
          List.find?_cons_of_neg t₂ (by rw [← hab]; exact hq)
        rw [e1, e2]
        exact ih t₂ ht

theorem varAtD_stat_congr {m₁ m₂ : Model} (h : sameStaticVars m₁ m₂) (i : Nat) :
    (varAtD m₁ i).stat = (varAtD m₂ i).stat := by
  have key := find?_map_congr Variable.stat (fun s => s.probindex == i) m₁.vars m₂.vars h
  unfold varAtD varAt
  cases h₁ : m₁.vars.find? (fun v => v.stat.probindex == i) <;>
    cases h₂ : m₂.vars.find? (fun v => v.stat.probindex == i) <;>
    rw [h₁, h₂] at key <;> simp_all

theorem nVars_eq_of_sameStaticVars {m₁ m₂ : Model} (h : sameStaticVars m₁ m₂) :
    m₁.nVars = m₂.nVars := by
  have hl := congrArg List.length h
  simpa [Model.nVars] using hl

theorem nRows_eq_of_sameStaticRows {m₁ m₂ : Model} (h : sameStaticRows m₁ m₂) :
    m₁.nRows = m₂.nRows := by
  have hl := congrArg List.length h
  simpa [Model.nRows] using hl

theorem nodeVarStaticMatrix_congr {m₁ m₂ : Model} (h : sameStaticVars m₁ m₂) :
    nodeVarStaticMatrix m₁ = nodeVarStaticMatrix m₂ := by
  unfold nodeVarStaticMatrix orderedVars
  rw [List.map_map, List.map_map, nVars_eq_of_sameStaticVars h]
  apply List.map_congr_left
  intro i _
  show nodeVarStatic (varAtD m₁ i) = nodeVarStatic (varAtD m₂ i)
  unfold nodeVarStatic
  rw [varAtD_stat_congr h i]

theorem nodeRowStaticMatrix_congr {m₁ m₂ : Model} (h : sameStaticRows m₁ m₂) :
    nodeRowStaticMatrix m₁ = nodeRowStaticMatrix m₂ := by
  have hm : ∀ m : Model, nodeRowStaticMatrix m =
      (m.rows.map Row.stat).map (fun s => [s.bias, s.objCosineSim]) := by
    intro m
    unfold nodeRowStaticMatrix
    rw [List.map_map]
    rfl
  rw [hm, hm, h]

theorem map_take_zipWith_append {α : Type} (k : Nat) :
    ∀ (st dyn : List (List α)), st.length = dyn.length → (∀ r ∈ st, r.length = k) →
    (List.zipWith (fun a b => a ++ b) st dyn).map (List.take k) = st := by
  intro st
  induction st with
  | nil => intro dyn _ _; simp
  | cons a t ih =>
    intro dyn h hk
    cases dyn with
    | nil => simp at h
    | cons b t₂ =>
      have ha : a.length = k := hk a (List.mem_cons_self a t)
      have h1 : (a ++ b).take k = a := List.take_left' ha
      simp only [List.zipWith_cons_cons, List.map_cons, h1]
      rw [ih t₂ (by simpa using h) (fun r hr => hk r (List.mem_cons_of_mem _ hr))]

theorem nodeVarStaticMatrix_length (m : Model) :
    (nodeVarStaticMatrix m).length = m.nVars := by
  simp [nodeVarStaticMatrix, length_orderedVars]

theorem nodeVarDynamicMatrix_length (m : Model) :
    (nodeVarDynamicMatrix m).length = m.nVars := by
  simp [nodeVarDynamicMatrix, length_orderedVars]

theorem nodeRowStaticMatrix_length (m : Model) :
    (nodeRowStaticMatrix m).length = m.nRows := by
  simp [nodeRowStaticMatrix, Model.nRows]

theorem nodeRowDynamicMatrix_length (m : Model) :
    (nodeRowDynamicMatrix m).length = m.nRows := by
  simp [nodeRowDynamicMatrix, Model.nRows]

theorem nodeVarStaticMatrix_row_length (m : Model) :
    ∀ r ∈ nodeVarStaticMatrix m, r.length = 7 := by
  intro r hr
  obtain ⟨v, _, hv⟩ := List.mem_map.mp hr
  rw [← hv]
  rfl

theorem nodeRowStaticMatrix_row_length (m : Model) :
    ∀ r ∈ nodeRowStaticMatrix m, r.length = 2 := by
  intro r hr
  obtain ⟨v, _, hv⟩ := List.mem_map.mp hr
  rw [← hv]
  rfl

theorem mem_rowTriples {i i' j : Nat} {c : ℚ} {r : Row} :
    (i, j, c) ∈ rowTriples i' r ↔ i = i' ∧ r.stat.coefs[j]? = some c ∧ c ≠ 0 := by
  unfold rowTriples
  rw [List.mem_map]
  constructor
  · rintro ⟨⟨j', c'⟩, hmem, heq⟩
    rw [List.mem_filter] at hmem
    obtain ⟨henum, hnz⟩ := hmem
    have h1 : i' = i ∧ j' = j ∧ c' = c := by
      simpa [Prod.ext_iff] using heq
    obtain ⟨h1i, h1j, h1c⟩ := h1
    subst h1i; subst h1j; subst h1c
    rw [List.mem_enum_iff_getElem?] at henum
    exact ⟨rfl, henum, by simpa using hnz⟩
  · rintro ⟨rfl, hget, hnz⟩
    refine ⟨(j, c), ?_, rfl⟩
    rw [List.mem_filter]
    exact ⟨List.mem_enum_iff_getElem?.mpr hget, by simpa using hnz⟩

theorem mem_edgeTriples {m : Model} {i j : Nat} {c : ℚ} :
    (i, j, c) ∈ edgeTriples m ↔
      ∃ r, m.rows[i]? = some r ∧ r.stat.coefs[j]? = some c ∧ c ≠ 0 := by
  unfold edgeTriples
  rw [List.mem_flatMap]
  constructor
  · rintro ⟨⟨i', r⟩, hmem, htrip⟩
    rw [mem_rowTriples] at htrip
    obtain ⟨rfl, hget, hnz⟩ := htrip
    rw [List.mem_enum_iff_getElem?] at hmem
    exact ⟨r, hmem, hget, hnz⟩
  · rintro ⟨r, hrow, hget, hnz⟩
    refine ⟨(i, r), List.mem_enum_iff_getElem?.mpr hrow, ?_⟩
    rw [mem_rowTriples]
    exact ⟨rfl, hget, hnz⟩

theorem hasEntry_buildEdgeMatrix {m : Model} {i j : Nat} {c : ℚ} :
    (buildEdgeMatrix m).hasEntry i j c ↔ (i, j, c) ∈ edgeTriples m := by
  unfold buildEdgeMatrix COOMatrix.hasEntry
  constructor
  · rintro ⟨k, hv, hi, hj⟩
    simp only [List.getElem?_cons_zero, List.getElem?_cons_succ, Option.some_bind] at hi hj
    rw [List.getElem?_map] at hv hi hj
    cases htk : (edgeTriples m)[k]? with
    | none => rw [htk] at hv; simp at hv
    | some t =>
      rw [htk] at hv hi hj
      simp only [Option.map_some', Option.some.injEq] at hv hi hj
      have ht : t = (i, j, c) := by
        obtain ⟨t1, t2, t3⟩ := t
        simp_all
      rw [← ht]
      exact List.mem_iff_getElem?.mpr ⟨k, htk⟩
  · intro hmem
    obtain ⟨k, hk⟩ := List.getElem?_of_mem hmem
    refine ⟨k, ?_, ?_, ?_⟩ <;> simp [List.getElem?_map, hk]

theorem rowTriples_length_le {i : Nat} {r : Row} :
    (rowTriples i r).length ≤ r.stat.coefs.length := by
  unfold rowTriples
  rw [List.length_map]
  calc (r.stat.coefs.enum.filter (fun p => decide (p.2 ≠ 0))).length
      ≤ r.stat.coefs.enum.length := (List.filter_sublist _).length_le
    _ = r.stat.coefs.length := by simp

theorem edgeTriples_length_le {m : Model} (hwf : m.WF) :
    (edgeTriples m).length ≤ m.nRows * m.nVars := by
  unfold edgeTriples
  rw [List.length_flatMap]
  have hb : ∀ x ∈ m.rows.enum.map (List.length ∘ fun p : Nat × Row => rowTriples p.1 p.2),
      x ≤ m.nVars := by
    intro x hx
    obtain ⟨⟨i, r⟩, hmem, hxe⟩ := List.mem_map.mp hx
    rw [← hxe]
    have hr : r ∈ m.rows := by
      rw [List.mem_enum_iff_getElem?] at hmem
      exact List.mem_iff_getElem?.mpr ⟨i, hmem⟩
    calc (List.length ∘ fun p : Nat × Row => rowTriples p.1 p.2) (i, r)
        = (rowTriples i r).length := rfl
      _ ≤ r.stat.coefs.length := rowTriples_length_le
      _ = m.nVars := hwf.2 r hr
  have hsum := List.sum_le_card_nsmul _ m.nVars hb
  rw [List.length_map] at hsum
  have hle : m.rows.enum.length = m.nRows := by simp [Model.nRows]
  rw [hle] at hsum
  simpa [smul_eq_mul] using hsum

theorem fst_of_mem_rowTriples_map {i : Nat} {r : Row} {a : Nat × Nat}
    (ha : a ∈ (rowTriples i r).map (fun t => (t.1, t.2.1))) : a.1 = i := by
  obtain ⟨t, htm, hta⟩ := List.mem_map.mp ha
  unfold rowTriples at htm
  obtain ⟨p, _, htp⟩ := List.mem_map.mp htm
  rw [← hta, ← htp]

theorem edgePairs_nodup (m : Model) :
    ((edgeTriples m).map (fun t => (t.1, t.2.1))).Nodup := by
  unfold edgeTriples
  rw [List.map_flatMap, List.nodup_flatMap]
  constructor
  · rintro ⟨i, r⟩ _
    unfold rowTriples
    rw [List.map_map]
    have hnd : ((r.stat.coefs.enum.filter (fun p => decide (p.2 ≠ 0))).map Prod.fst).Nodup := by
      have hsub :=
        (List.filter_sublist (p := fun p : Nat × ℚ => decide (p.2 ≠ 0)) r.stat.coefs.enum).map
          Prod.fst
      exact hsub.nodup (List.nodup_enum_map_fst _)
    have hpw : List.Pairwise (fun p q : Nat × ℚ => p.1 ≠ q.1)
        (r.stat.coefs.enum.filter (fun p => decide (p.2 ≠ 0))) := by
      unfold List.Nodup at hnd
      rw [List.pairwise_map] at hnd
      exact hnd
    unfold List.Nodup
    rw [List.pairwise_map]
    refine hpw.imp ?_
    intro p q hne heq
    apply hne
    have h2 := congrArg Prod.snd heq
    simpa using h2
  · have hfst : List.Pairwise (fun p q : Nat × Row => p.1 ≠ q.1) m.rows.enum := by
      have h1 := List.nodup_enum_map_fst m.rows
      unfold List.Nodup at h1
      rw [List.pairwise_map] at h1
      exact h1
    refine hfst.imp ?_
    intro p q hne
    intro a hap haq
    have h1 : a.1 = p.1 := fst_of_mem_rowTriples_map hap
    have h2 : a.1 = q.1 := fst_of_mem_rowTriples_map haq
    exact hne (h1.symm.trans h2)

theorem padWith_length {α : Type} (k : Nat) (d : α) (l : List α) :
    (padWith k d l).length = k := by
  unfold padWith
  rw [List.length_take, List.length_append, List.length_replicate]
  omega

theorem khalilStaticRow_length (m : Model) (v : Variable) :
    (khalilStaticRow m v).length = 18 := by
  unfold khalilStaticRow
  rw [List.length_append, padWith_length]
  rfl

theorem khalilDynRow_length (v : Variable) : (khalilDynRow v).length = 54 := by
  unfold khalilDynRow
  rw [padWith_length]

theorem khalilStaticMatrix_row_length (m : Model) :
    ∀ r ∈ khalilStaticMatrix m, r.length = 18 := by
  intro r hr
  obtain ⟨v, _, hv⟩ := List.mem_map.mp hr
  rw [← hv]
  exact khalilStaticRow_length m v

theorem khalil_row_length (e : Khalil2016) (m : Model)
    (hcache : ∀ r ∈ e.staticCache, r.length = 18) :
    ∀ row ∈ (e.extractObs m).features, row.length = 72 := by
  intro row hrow
  unfold Khalil2016.extractObs at hrow
  obtain ⟨i, _, hio⟩ := List.mem_map.mp hrow
  rw [← hio]
  by_cases hc : i ∈ candidateSet e.pseudo_candidates m
  · rw [if_pos hc, List.length_append, khalilDynRow_length]
    have hlen : (e.staticCache.getD i (List.replicate 18 EVal.nan)).length = 18 := by
      rw [List.getD_eq_getElem?_getD]
      cases h : e.staticCache[i]? with
      | none => simp
      | some r => simpa using hcache r (List.mem_iff_getElem?.mpr ⟨i, h⟩)
    rw [hlen]
  · rw [if_neg hc]
    simp

theorem khalil_features_getElem? (e : Khalil2016) (m : Model) {i : Nat} (hi : i < m.nVars) :
    (e.extractObs m).features[i]? =
      some (if i ∈ candidateSet e.pseudo_candidates m then
        (e.staticCache.getD i (List.replicate 18 EVal.nan)) ++ khalilDynRow (varAtD m i)
      else List.replicate 72 EVal.nan) := by
  unfold Khalil2016.extractObs
  rw [List.getElem?_map, List.getElem?_range hi]
  rfl

theorem scoresVector_getElem? {m : Model} (hwf : m.WF) (cands : List Nat)
    (score : Variable → ℚ) {i : Nat} (hi : i < m.nVars) :
    (scoresVector cands score m)[i]? =
      some (if i ∈ cands then EVal.num (score (varAtD m i)) else EVal.nan) := by
  unfold scoresVector
  rw [List.getElem?_map, orderedVars_getElem? m hi]
  simp only [Option.map_some']
  rw [(varAtD_mem hwf hi).2]

theorem scoresVector_length (cands : List Nat) (score : Variable → ℚ) (m : Model) :
    (scoresVector cands score m).length = m.nVars := by
  unfold scoresVector
  rw [List.length_map, length_orderedVars]

theorem zipWith_append_map {α β : Type} (f g : α → List β) (l : List α) :
    List.zipWith (fun a b => a ++ b) (l.map f) (l.map g) = l.map (fun v => f v ++ g v) := by
  induction l with
  | nil => rfl
  | cons a t ih => simp only [List.map_cons, List.zipWith_cons_cons, ih]

theorem nodeBipartite_uncached_variable_features (m : Model) :
    (((NodeBipartite.new false).before_reset m).extractObs m).variable_features =
      (orderedVars m).map nodeVarRow := by
  unfold NodeBipartite.extractObs NodeBipartite.before_reset NodeBipartite.new
  simp only [Bool.false_eq_true, if_false, Option.getD_none]
  unfold nodeVarStaticMatrix nodeVarDynamicMatrix
  rw [zipWith_append_map]
  rfl

theorem nodeBipartite_uncached_row_features (m : Model) :
    (((NodeBipartite.new false).before_reset m).extractObs m).row_features =
      m.rows.map nodeRowRow := by
  unfold NodeBipartite.extractObs NodeBipartite.before_reset NodeBipartite.new
  simp only [Bool.false_eq_true, if_false, Option.getD_none]
  unfold nodeRowStaticMatrix nodeRowDynamicMatrix
  rw [zipWith_append_map]
  rfl

theorem orderedVars_stat_congr {m₁ m₂ : Model} (h : sameStaticVars m₁ m₂) :
    (orderedVars m₁).map Variable.stat = (orderedVars m₂).map Variable.stat := by
  unfold orderedVars
  rw [List.map_map, List.map_map, nVars_eq_of_sameStaticVars h]
  apply List.map_congr_left
  intro i _
  exact varAtD_stat_congr h i

theorem milp_uncached_variable_features (m : Model) :
    (((MilpBipartite.new false).before_reset m).extractObs m).variable_features =
      (orderedVars m).map milpVarRow := rfl

theorem milp_uncached_constraint_features (m : Model) :
    (((MilpBipartite.new false).before_reset m).extractObs m).constraint_features =
      m.rows.map milpConsRow := rfl

theorem khalilStaticMatrix_getD (m : Model) {i : Nat} (hi : i < m.nVars) (d : List EVal) :
    (khalilStaticMatrix m).getD i d = khalilStaticRow m (varAtD m i) := by
  rw [List.getD_eq_getElem?_getD]
  unfold khalilStaticMatrix
  rw [List.getElem?_map, orderedVars_getElem? m hi]
  rfl

theorem cached_staticVarSlice (m0 mx : Model) (hsv : sameStaticVars m0 mx) :
    staticVarSlice (((NodeBipartite.new true).before_reset m0).extractObs mx) =
      nodeVarStaticMatrix m0 := by
  unfold staticVarSlice
  have hvf : (((NodeBipartite.new true).before_reset m0).extractObs mx).variable_features =
      List.zipWith (fun a b => a ++ b) (nodeVarStaticMatrix m0) (nodeVarDynamicMatrix mx) := rfl
  rw [hvf]
  apply map_take_zipWith_append
  · rw [nodeVarStaticMatrix_length, nodeVarDynamicMatrix_length,
      nVars_eq_of_sameStaticVars hsv]
  · exact nodeVarStaticMatrix_row_length m0

theorem cached_staticRowSlice (m0 mx : Model) (hsr : sameStaticRows m0 mx) :
    staticRowSlice (((NodeBipartite.new true).before_reset m0).extractObs mx) =
      nodeRowStaticMatrix m0 := by
  unfold staticRowSlice
  have hrf : (((NodeBipartite.new true).before_reset m0).extractObs mx).row_features =
      List.zipWith (fun a b => a ++ b) (nodeRowStaticMatrix m0) (nodeRowDynamicMatrix mx) := rfl
  rw [hrf]
  apply map_take_zipWith_append
  · rw [nodeRowStaticMatrix_length, nodeRowDynamicMatrix_length,
      nRows_eq_of_sameStaticRows hsr]
  · exact nodeRowStaticMatrix_row_length m0

theorem uncached_staticVarSlice (m : Model) :
    staticVarSlice (((NodeBipartite.new false).before_reset m).extractObs m) =
      nodeVarStaticMatrix m := by
  unfold staticVarSlice
  have hvf : (((NodeBipartite.new false).before_reset m).extractObs m).variable_features =
      List.zipWith (fun a b => a ++ b) (nodeVarStaticMatrix m) (nodeVarDynamicMatrix m) := rfl
  rw [hvf]
  apply map_take_zipWith_append
  · rw [nodeVarStaticMatrix_length, nodeVarDynamicMatrix_length]
  · exact nodeVarStaticMatrix_row_length m

theorem uncached_staticRowSlice (m : Model) :
    staticRowSlice (((NodeBipartite.new false).before_reset m).extractObs m) =
      nodeRowStaticMatrix m := by
  unfold staticRowSlice
  have hrf : (((NodeBipartite.new false).before_reset m).extractObs m).row_features =
      List.zipWith (fun a b => a ++ b) (nodeRowStaticMatrix m) (nodeRowDynamicMatrix m) := rfl
  rw [hrf]
  apply map_take_zipWith_append
  · rw [nodeRowStaticMatrix_length, nodeRowDynamicMatrix_length]
  · exact nodeRowStaticMatrix_row_length m

/-- C6: for every sparse coordinate matrix, a serialize-then-deserialize
round trip over (values, indices, shape) reproduces the identical triple
with no precision loss, equality is value-based over the three fields, and
copy is value-based: the copy equals the original and overwriting the
value vector of the copy leaves the original unchanged, so the two share
no mutable state. -/
theorem claim6_coo_pickle_copy (c c₂ : COOMatrix) (v : List ℚ)
    (t : List ℚ × List (List Nat) × List Nat) :
    COOMatrix.decode (COOMatrix.encode c) = c
  ∧ COOMatrix.encode (COOMatrix.decode t) = t
  ∧ COOMatrix.copy c = c
  ∧ (c = c₂ ↔ c.values = c₂.values ∧ c.indices = c₂.indices ∧ c.shape = c₂.shape)
  ∧ (c.copyThenMutate v).2.values = v
  ∧ (c.copyThenMutate v).1 = c := by
  refine ⟨rfl, rfl, rfl, ?_, rfl, rfl⟩
  constructor
  · intro h
    rw [h]
    exact ⟨rfl, rfl, rfl⟩
  · rintro ⟨h1, h2, h3⟩
    cases c
    cases c₂
    simp_all

/-- C8 counterexample: FocusNodeObs is bound in observation.cpp as a plain
class with read-only properties, without def_auto_pickle and without
def_auto_copy, so it is not true that every observation value type exposed
by the subsystem supports the pickle round trip and value-based copy. -/
theorem claim8_counterexample :
    ¬ ∀ cb ∈ bindSubmoduleClasses, cb.has_auto_pickle = true ∧ cb.has_auto_copy = true := by
  decide

/-- C8 amended: every observation value type except FocusNodeObs
(NodeBipartiteObs, MilpBipartiteObs, Khalil2016Obs, Hutter2011Obs) and the
sparse matrix type support the encode/decode round trip preserving exact
field values and value-based copy; FocusNodeObs is bound without either. -/
theorem claim8_amended (cb : ClassBinding) (hcb : cb ∈ bindSubmoduleClasses)
    (hfn : cb.className ≠ "FocusNodeObs")
    (o₁ : NodeBipartiteObs) (o₂ : MilpBipartiteObs) (o₃ : Khalil2016Obs)
    (o₄ : Hutter2011Obs) (c : COOMatrix) :
    (cb.has_auto_pickle = true ∧ cb.has_auto_copy = true)
  ∧ NodeBipartiteObs.decode (NodeBipartiteObs.encode o₁) = o₁ ∧ o₁.copy = o₁
  ∧ MilpBipartiteObs.decode (MilpBipartiteObs.encode o₂) = o₂ ∧ o₂.copy = o₂
  ∧ Khalil2016Obs.decode (Khalil2016Obs.encode o₃) = o₃ ∧ o₃.copy = o₃
  ∧ Hutter2011Obs.decode (Hutter2011Obs.encode o₄) = o₄ ∧ o₄.copy = o₄
  ∧ COOMatrix.decode (COOMatrix.encode c) = c ∧ c.copy = c := by
  refine ⟨?_, rfl, rfl, rfl, rfl, rfl, rfl, rfl, rfl, rfl, rfl⟩
  fin_cases hcb <;> simp_all

/-- Witness for the amended C8, at the coo_matrix binding entry and empty
observation values. -/
theorem claim8_amended_witness :
    (⟨"coo_matrix", true, true, ["values", "indices", "shape"]⟩ : ClassBinding) ∈
      bindSubmoduleClasses
  ∧ ((⟨"coo_matrix", true, true, ["values", "indices", "shape"]⟩ : ClassBinding).className ≠
      "FocusNodeObs")
  ∧ ((⟨"coo_matrix", true, true, ["values", "indices", "shape"]⟩ :
        ClassBinding).has_auto_pickle = true ∧
      (⟨"coo_matrix", true, true, ["values", "indices", "shape"]⟩ :
        ClassBinding).has_auto_copy = true)
  ∧ NodeBipartiteObs.decode (NodeBipartiteObs.encode ⟨[], [], ⟨[], [], []⟩⟩) =
      ⟨[], [], ⟨[], [], []⟩⟩
  ∧ NodeBipartiteObs.copy ⟨[], [], ⟨[], [], []⟩⟩ = ⟨[], [], ⟨[], [], []⟩⟩
  ∧ MilpBipartiteObs.decode (MilpBipartiteObs.encode ⟨[], [], ⟨[], [], []⟩⟩) =
      ⟨[], [], ⟨[], [], []⟩⟩
  ∧ MilpBipartiteObs.copy ⟨[], [], ⟨[], [], []⟩⟩ = ⟨[], [], ⟨[], [], []⟩⟩
  ∧ Khalil2016Obs.decode (Khalil2016Obs.encode ⟨[]⟩) = ⟨[]⟩
  ∧ Khalil2016Obs.copy ⟨[]⟩ = ⟨[]⟩
  ∧ Hutter2011Obs.decode (Hutter2011Obs.encode ⟨[]⟩) = ⟨[]⟩
  ∧ Hutter2011Obs.copy ⟨[]⟩ = ⟨[]⟩
  ∧ COOMatrix.decode (COOMatrix.encode ⟨[], [], []⟩) = ⟨[], [], []⟩
  ∧ COOMatrix.copy ⟨[], [], []⟩ = ⟨[], [], []⟩ := by
  refine ⟨by decide, by decide, ?_⟩
  exact claim8_amended ⟨"coo_matrix", true, true, ["values", "indices", "shape"]⟩
    (by decide) (by decide) ⟨[], [], ⟨[], [], []⟩⟩ ⟨[], [], ⟨[], [], []⟩⟩ ⟨[]⟩ ⟨[]⟩
    ⟨[], [], []⟩

/-- C9: for every extractor variant, calling extract on a freshly
constructed instance on which reset was never called fails immediately
with the usage-sequence error; the error value carries no partial
observation. -/
theorem claim9_extract_before_reset (m : Model) (done cache norm pc pk : Bool) :
    NodeBipartite.extract (NodeBipartite.new cache) m done =
      Except.error ExtractError.extractBeforeReset
  ∧ MilpBipartite.extract (MilpBipartite.new norm) m done =
      Except.error ExtractError.extractBeforeReset
  ∧ StrongBranchingScores.extract (StrongBranchingScores.new pc) m done =
      Except.error ExtractError.extractBeforeReset
  ∧ Pseudocosts.extract Pseudocosts.new m done =
      Except.error ExtractError.extractBeforeReset
  ∧ Khalil2016.extract (Khalil2016.new pk) m done =
      Except.error ExtractError.extractBeforeReset
  ∧ Hutter2011.extract Hutter2011.new m done =
      Except.error ExtractError.extractBeforeReset
  ∧ FocusNode.extract FocusNode.new m done =
      Except.error ExtractError.extractBeforeReset
  ∧ Capacity.extract Capacity.new m done =
      Except.error ExtractError.extractBeforeReset
  ∧ Weight.extract Weight.new m done =
      Except.error ExtractError.extractBeforeReset
  ∧ Nothing.extract Nothing.new m done =
      Except.error ExtractError.extractBeforeReset := by
  exact ⟨rfl, rfl, rfl, rfl, rfl, rfl, rfl, rfl, rfl, rfl⟩

/-- C10: when constructor arguments are omitted, every configurable
extractor defaults to its plain mode: NodeBipartite is constructed with
cache = false, MilpBipartite with normalize = false, and
StrongBranchingScores and Khalil2016 with pseudo_candidates = false. -/
theorem claim10_constructor_defaults :
    NodeBipartite.newDefault.use_cache = false
  ∧ MilpBipartite.newDefault.normalize = false
  ∧ StrongBranchingScores.newDefault.pseudo_candidates = false
  ∧ Khalil2016.newDefault.pseudo_candidates = false :=
  ⟨rfl, rfl, rfl, rfl⟩

theorem khalil_cache_getD_length (L : List (List EVal)) (hL : ∀ r ∈ L, r.length = 18)
    (i : Nat) : (L.getD i (List.replicate 18 EVal.nan)).length = 18 := by
  rw [List.getD_eq_getElem?_getD]
  cases h : L[i]? with
  | none => simp
  | some r => simpa using hL r (List.mem_iff_getElem?.mpr ⟨i, h⟩)

/-- C2: for both bipartite builders, the edge sparse matrix has an entry
with value c at (i, j) exactly when row i of the model holds the non-zero
coefficient c for the variable with entity index j, the two builders
produce the same edge matrix, and the feature matrices have exactly one
row per variable and per LP row or constraint. -/
theorem claim2_bipartite_structure (m : Model) (i j : Nat) (c : ℚ) :
    ((((NodeBipartite.new false).before_reset m).extractObs m).edge_features.hasEntry i j c ↔
      ∃ r, m.rows[i]? = some r ∧ r.stat.coefs[j]? = some c ∧ c ≠ 0)
  ∧ (((MilpBipartite.new false).before_reset m).extractObs m).edge_features =
      (((NodeBipartite.new false).before_reset m).extractObs m).edge_features
  ∧ (((NodeBipartite.new false).before_reset m).extractObs m).variable_features.length =
      m.nVars
  ∧ (((NodeBipartite.new false).before_reset m).extractObs m).row_features.length = m.nRows
  ∧ (((MilpBipartite.new false).before_reset m).extractObs m).variable_features.length =
      m.nVars
  ∧ (((MilpBipartite.new false).before_reset m).extractObs m).constraint_features.length =
      m.nRows := by
  refine ⟨?_, rfl, ?_, ?_, ?_, ?_⟩
  · exact hasEntry_buildEdgeMatrix.trans mem_edgeTriples
  · rw [nodeBipartite_uncached_variable_features, List.length_map, length_orderedVars]
  · rw [nodeBipartite_uncached_row_features, List.length_map]
    rfl
  · rw [milp_uncached_variable_features, List.length_map, length_orderedVars]
  · rw [milp_uncached_constraint_features, List.length_map]
    rfl

/-- C3: for StrongBranchingScores, Pseudocosts and Khalil2016, every
variable outside the candidate set selected by the extractor is filled
with the propagating sentinel rather than omitted or raising an error:
the score vectors and the feature matrix keep one entry per variable,
extraction after reset succeeds, the sentinel compares unequal to itself,
and it propagates through addition and multiplication. -/
theorem claim3_sentinel_fill (m : Model) (hwf : m.WF) (pc done : Bool) (i : Nat)
    (hi : i < m.nVars) (hc : i ∉ candidateSet pc m) (hl : i ∉ m.lpCands) (x : EVal) :
    (((StrongBranchingScores.new pc).before_reset m).extractObs m)[i]? = some EVal.nan
  ∧ ((Pseudocosts.new.before_reset m).extractObs m)[i]? = some EVal.nan
  ∧ (((Khalil2016.new pc).before_reset m).extractObs m).features[i]? =
      some (List.replicate 72 EVal.nan)
  ∧ (((StrongBranchingScores.new pc).before_reset m).extractObs m).length = m.nVars
  ∧ ((Pseudocosts.new.before_reset m).extractObs m).length = m.nVars
  ∧ (((Khalil2016.new pc).before_reset m).extractObs m).features.length = m.nVars
  ∧ ((StrongBranchingScores.new pc).before_reset m).extract m done =
      Except.ok (((StrongBranchingScores.new pc).before_reset m).extractObs m)
  ∧ (Pseudocosts.new.before_reset m).extract m done =
      Except.ok ((Pseudocosts.new.before_reset m).extractObs m)
  ∧ ((Khalil2016.new pc).before_reset m).extract m done =
      Except.ok (((Khalil2016.new pc).before_reset m).extractObs m)
  ∧ EVal.beq EVal.nan EVal.nan = false
  ∧ EVal.add EVal.nan x = EVal.nan ∧ EVal.add x EVal.nan = EVal.nan
  ∧ EVal.mul EVal.nan x = EVal.nan ∧ EVal.mul x EVal.nan = EVal.nan := by
  refine ⟨?_, ?_, ?_, ?_, ?_, ?_, rfl, rfl, rfl, rfl, ?_, ?_, ?_, ?_⟩
  · show (scoresVector (candidateSet pc m) (fun v => v.dyn.sbScore) m)[i]? = some EVal.nan
    rw [scoresVector_getElem? hwf _ _ hi, if_neg hc]
  · show (scoresVector m.lpCands (fun v => v.dyn.pseudocost) m)[i]? = some EVal.nan
    rw [scoresVector_getElem? hwf _ _ hi, if_neg hl]
  · rw [khalil_features_getElem? _ _ hi]
    have hred : ((Khalil2016.new pc).before_reset m).pseudo_candidates = pc := rfl
    rw [hred, if_neg hc]
  · exact scoresVector_length _ _ m
  · exact scoresVector_length _ _ m
  · show ((List.range m.nVars).map _).length = m.nVars
    rw [List.length_map, List.length_range]
  · cases x <;> rfl
  · cases x <;> rfl
  · cases x <;> rfl
  · cases x <;> rfl

/-- Witness for C3 at the example model, with variable index 1 outside
both candidate sets. -/
theorem claim3_witness :
    exModel.WF ∧ 1 < exModel.nVars ∧ (1 : Nat) ∉ candidateSet false exModel ∧
    (1 : Nat) ∉ exModel.lpCands ∧
    ((((StrongBranchingScores.new false).before_reset exModel).extractObs exModel)[1]? =
        some EVal.nan
  ∧ ((Pseudocosts.new.before_reset exModel).extractObs exModel)[1]? = some EVal.nan
  ∧ (((Khalil2016.new false).before_reset exModel).extractObs exModel).features[1]? =
      some (List.replicate 72 EVal.nan)
  ∧ (((StrongBranchingScores.new false).before_reset exModel).extractObs exModel).length =
      exModel.nVars
  ∧ ((Pseudocosts.new.before_reset exModel).extractObs exModel).length = exModel.nVars
  ∧ (((Khalil2016.new false).before_reset exModel).extractObs exModel).features.length =
      exModel.nVars
  ∧ ((StrongBranchingScores.new false).before_reset exModel).extract exModel true =
      Except.ok (((StrongBranchingScores.new false).before_reset exModel).extractObs exModel)
  ∧ (Pseudocosts.new.before_reset exModel).extract exModel true =
      Except.ok ((Pseudocosts.new.before_reset exModel).extractObs exModel)
  ∧ ((Khalil2016.new false).before_reset exModel).extract exModel true =
      Except.ok (((Khalil2016.new false).before_reset exModel).extractObs exModel)
  ∧ EVal.beq EVal.nan EVal.nan = false
  ∧ EVal.add EVal.nan (EVal.num 0) = EVal.nan ∧ EVal.add (EVal.num 0) EVal.nan = EVal.nan
  ∧ EVal.mul EVal.nan (EVal.num 0) = EVal.nan ∧
      EVal.mul (EVal.num 0) EVal.nan = EVal.nan) :=
  ⟨by decide, by decide, by decide, by decide,
   claim3_sentinel_fill exModel (by decide) false true 1 (by decide) (by decide) (by decide)
     (EVal.num 0)⟩

/-- C5: every Khalil2016 extraction call returns a feature matrix with one
row per variable and exactly n_static_features + n_dynamic_features
columns; on a candidate row the first n_static_features columns are the
static features cached at reset and the remaining n_dynamic_features
columns are the freshly computed dynamic features. -/
theorem claim5_khalil_columns (p : Bool) (m0 m : Model) :
    (((Khalil2016.new p).before_reset m0).extractObs m).features.length = m.nVars
  ∧ (∀ row ∈ (((Khalil2016.new p).before_reset m0).extractObs m).features,
      row.length = Khalil2016Obs.n_static_features + Khalil2016Obs.n_dynamic_features)
  ∧ (∀ i, i < m.nVars → i ∈ candidateSet p m →
      ∃ row, (((Khalil2016.new p).before_reset m0).extractObs m).features[i]? = some row ∧
        row.take Khalil2016Obs.n_static_features =
          (khalilStaticMatrix m0).getD i (List.replicate 18 EVal.nan) ∧
        row.drop Khalil2016Obs.n_static_features = khalilDynRow (varAtD m i)) := by
  have hcache : ∀ r ∈ ((Khalil2016.new p).before_reset m0).staticCache, r.length = 18 :=
    khalilStaticMatrix_row_length m0
  refine ⟨?_, ?_, ?_⟩
  · show ((List.range m.nVars).map _).length = m.nVars
    rw [List.length_map, List.length_range]
  · intro row hrow
    exact khalil_row_length _ m hcache row hrow
  · intro i hi hcand
    have hlen : ((khalilStaticMatrix m0).getD i (List.replicate 18 EVal.nan)).length = 18 :=
      khalil_cache_getD_length _ (khalilStaticMatrix_row_length m0) i
    refine ⟨(khalilStaticMatrix m0).getD i (List.replicate 18 EVal.nan) ++
        khalilDynRow (varAtD m i), ?_, ?_, ?_⟩
    · rw [khalil_features_getElem? _ _ hi]
      have hred : ((Khalil2016.new p).before_reset m0).pseudo_candidates = p := rfl
      have hredc : ((Khalil2016.new p).before_reset m0).staticCache =
          khalilStaticMatrix m0 := rfl
      rw [hred, hredc, if_pos hcand]
    · exact List.take_left' hlen
    · exact List.drop_left' hlen

/-- Witness for C5 at the example model, showing a candidate row of the
returned matrix with its static prefix and dynamic suffix. -/
theorem claim5_witness :
    0 < exModel.nVars ∧ (0 : Nat) ∈ candidateSet false exModel ∧
    (∃ row,
      (((Khalil2016.new false).before_reset exModel).extractObs exModel).features[0]? =
        some row ∧
      row.take Khalil2016Obs.n_static_features =
        (khalilStaticMatrix exModel).getD 0 (List.replicate 18 EVal.nan) ∧
      row.drop Khalil2016Obs.n_static_features = khalilDynRow (varAtD exModel 0)) :=
  ⟨by decide, by decide,
   (claim5_khalil_columns false exModel exModel).2.2 0 (by decide) (by decide)⟩

/-- C7: every sparse matrix produced by an extraction call satisfies the
coordinate-format invariants: nnz equals the length of the value vector,
every dimension row of the index matrix has nnz columns, nnz is at most
the product of the entries of shape, no coordinate pair appears twice
among the non-zeros, and both bipartite extractors emit exactly this
matrix. -/
theorem claim7_coo_invariants (m : Model) (hwf : m.WF) :
    (buildEdgeMatrix m).nnz = (buildEdgeMatrix m).values.length
  ∧ (∀ l ∈ (buildEdgeMatrix m).indices, l.length = (buildEdgeMatrix m).nnz)
  ∧ (buildEdgeMatrix m).nnz ≤ (buildEdgeMatrix m).shape.prod
  ∧ ((edgeTriples m).map (fun t => (t.1, t.2.1))).Nodup
  ∧ (((NodeBipartite.new false).before_reset m).extractObs m).edge_features =
      buildEdgeMatrix m
  ∧ (((MilpBipartite.new false).before_reset m).extractObs m).edge_features =
      buildEdgeMatrix m := by
  refine ⟨rfl, ?_, ?_, edgePairs_nodup m, rfl, rfl⟩
  · intro l hl
    have hor : l = (edgeTriples m).map (fun t => t.1) ∨
        l = (edgeTriples m).map (fun t => t.2.1) := by
      simpa [buildEdgeMatrix] using hl
    rcases hor with rfl | rfl <;> simp [buildEdgeMatrix, COOMatrix.nnz]
  · have h1 : (buildEdgeMatrix m).nnz = (edgeTriples m).length := by
      simp [buildEdgeMatrix, COOMatrix.nnz]
    have h2 : (buildEdgeMatrix m).shape.prod = m.nRows * m.nVars := by
      simp [buildEdgeMatrix]
    rw [h1, h2]
    exact edgeTriples_length_le hwf

/-- Witness for C7 at the example model. -/
theorem claim7_witness :
    exModel.WF ∧
    ((buildEdgeMatrix exModel).nnz = (buildEdgeMatrix exModel).values.length
  ∧ (∀ l ∈ (buildEdgeMatrix exModel).indices, l.length = (buildEdgeMatrix exModel).nnz)
  ∧ (buildEdgeMatrix exModel).nnz ≤ (buildEdgeMatrix exModel).shape.prod
  ∧ ((edgeTriples exModel).map (fun t => (t.1, t.2.1))).Nodup
  ∧ (((NodeBipartite.new false).before_reset exModel).extractObs exModel).edge_features =
      buildEdgeMatrix exModel
  ∧ (((MilpBipartite.new false).before_reset exModel).extractObs exModel).edge_features =
      buildEdgeMatrix exModel) :=
  ⟨by decide, claim7_coo_invariants exModel (by decide)⟩

/-- C1: the entity index mapping used by every per-variable extractor is a
bijection onto [0, n) matching original-problem load order (the variable
placed at position i has probindex i and each model variable appears
exactly once), the mapping is identical across repeated calls within the
same episode (it depends only on the static variable data), and every
per-variable feature row or score is emitted exactly at the mapped
index. -/
theorem claim1_entity_index_mapping (m m' : Model) (pc : Bool) (hwf : m.WF)
    (hss : sameStaticVars m m') :
    (orderedVars m).map (fun v => v.stat.probindex) = List.range m.nVars
  ∧ (orderedVars m).Perm m.vars
  ∧ (orderedVars m).map Variable.stat = (orderedVars m').map Variable.stat
  ∧ (∀ i, i < m.nVars →
      (varAtD m i).stat.probindex = i
    ∧ (((NodeBipartite.new false).before_reset m).extractObs m).variable_features[i]? =
        some (nodeVarRow (varAtD m i))
    ∧ (((MilpBipartite.new false).before_reset m).extractObs m).variable_features[i]? =
        some (milpVarRow (varAtD m i))
    ∧ (((StrongBranchingScores.new pc).before_reset m).extractObs m)[i]? =
        some (if i ∈ candidateSet pc m then EVal.num ((varAtD m i).dyn.sbScore)
              else EVal.nan)
    ∧ ((Pseudocosts.new.before_reset m).extractObs m)[i]? =
        some (if i ∈ m.lpCands then EVal.num ((varAtD m i).dyn.pseudocost) else EVal.nan)
    ∧ (((Khalil2016.new pc).before_reset m).extractObs m).features[i]? =
        some (if i ∈ candidateSet pc m then
                khalilStaticRow m (varAtD m i) ++ khalilDynRow (varAtD m i)
              else List.replicate 72 EVal.nan)) := by
  refine ⟨orderedVars_map_probindex hwf, orderedVars_perm hwf,
    orderedVars_stat_congr hss, ?_⟩
  intro i hi
  refine ⟨(varAtD_mem hwf hi).2, ?_, ?_, ?_, ?_, ?_⟩
  · rw [nodeBipartite_uncached_variable_features, List.getElem?_map,
      orderedVars_getElem? m hi]
    rfl
  · rw [milp_uncached_variable_features, List.getElem?_map, orderedVars_getElem? m hi]
    rfl
  · show (scoresVector (candidateSet pc m) (fun v => v.dyn.sbScore) m)[i]? = _
    rw [scoresVector_getElem? hwf _ _ hi]
  · show (scoresVector m.lpCands (fun v => v.dyn.pseudocost) m)[i]? = _
    rw [scoresVector_getElem? hwf _ _ hi]
  · rw [khalil_features_getElem? _ _ hi]
    have hred : ((Khalil2016.new pc).before_reset m).pseudo_candidates = pc := rfl
    have hredc : ((Khalil2016.new pc).before_reset m).staticCache =
        khalilStaticMatrix m := rfl
    rw [hred, hredc, khalilStaticMatrix_getD m hi]

/-- Witness for C1 at the example model, whose internal enumeration is out
of probindex order, paired with a later snapshot of the same episode. -/
theorem claim1_witness :
    exModel.WF ∧ sameStaticVars exModel exModel2 ∧
    ((orderedVars exModel).map (fun v => v.stat.probindex) = List.range exModel.nVars
  ∧ (orderedVars exModel).Perm exModel.vars
  ∧ (orderedVars exModel).map Variable.stat = (orderedVars exModel2).map Variable.stat
  ∧ (∀ i, i < exModel.nVars →
      (varAtD exModel i).stat.probindex = i
    ∧ (((NodeBipartite.new false).before_reset exModel).extractObs
        exModel).variable_features[i]? = some (nodeVarRow (varAtD exModel i))
    ∧ (((MilpBipartite.new false).before_reset exModel).extractObs
        exModel).variable_features[i]? = some (milpVarRow (varAtD exModel i))
    ∧ (((StrongBranchingScores.new false).before_reset exModel).extractObs exModel)[i]? =
        some (if i ∈ candidateSet false exModel then
                EVal.num ((varAtD exModel i).dyn.sbScore)
              else EVal.nan)
    ∧ ((Pseudocosts.new.before_reset exModel).extractObs exModel)[i]? =
        some (if i ∈ exModel.lpCands then EVal.num ((varAtD exModel i).dyn.pseudocost)
              else EVal.nan)
    ∧ (((Khalil2016.new false).before_reset exModel).extractObs exModel).features[i]? =
        some (if i ∈ candidateSet false exModel then
                khalilStaticRow exModel (varAtD exModel i) ++
                  khalilDynRow (varAtD exModel i)
              else List.replicate 72 EVal.nan))) :=
  ⟨by decide, by decide,
   claim1_entity_index_mapping exModel exModel2 false (by decide) (by decide)⟩

/-- C4: with caching enabled and no structural change within the episode,
the static-derived feature columns are identical across two extraction
calls, and they equal the static columns that the cache-disabled variant
recomputes independently. -/
theorem claim4_static_cache_agreement (m0 m1 m2 : Model)
    (h1 : sameStatic m0 m1) (h2 : sameStatic m0 m2) :
    staticVarSlice (((NodeBipartite.new true).before_reset m0).extractObs m1) =
      staticVarSlice (((NodeBipartite.new true).before_reset m0).extractObs m2)
  ∧ staticRowSlice (((NodeBipartite.new true).before_reset m0).extractObs m1) =
      staticRowSlice (((NodeBipartite.new true).before_reset m0).extractObs m2)
  ∧ staticVarSlice (((NodeBipartite.new true).before_reset m0).extractObs m1) =
      staticVarSlice (((NodeBipartite.new false).before_reset m1).extractObs m1)
  ∧ staticRowSlice (((NodeBipartite.new true).before_reset m0).extractObs m1) =
      staticRowSlice (((NodeBipartite.new false).before_reset m1).extractObs m1) := by
  refine ⟨?_, ?_, ?_, ?_⟩
  · rw [cached_staticVarSlice m0 m1 h1.1, cached_staticVarSlice m0 m2 h2.1]
  · rw [cached_staticRowSlice m0 m1 h1.2, cached_staticRowSlice m0 m2 h2.2]
  · rw [cached_staticVarSlice m0 m1 h1.1, uncached_staticVarSlice m1,
      nodeVarStaticMatrix_congr h1.1]
  · rw [cached_staticRowSlice m0 m1 h1.2, uncached_staticRowSlice m1,
      nodeRowStaticMatrix_congr h1.2]

/-- Witness for C4 at the example model and a later snapshot of the same
episode with different dynamic data. -/
theorem claim4_witness :
    sameStatic exModel exModel2 ∧ sameStatic exModel exModel ∧
    (staticVarSlice (((NodeBipartite.new true).before_reset exModel).extractObs exModel2) =
      staticVarSlice (((NodeBipartite.new true).before_reset exModel).extractObs exModel)
  ∧ staticRowSlice (((NodeBipartite.new true).before_reset exModel).extractObs exModel2) =
      staticRowSlice (((NodeBipartite.new true).before_reset exModel).extractObs exModel)
  ∧ staticVarSlice (((NodeBipartite.new true).before_reset exModel).extractObs exModel2) =
      staticVarSlice (((NodeBipartite.new false).before_reset exModel2).extractObs exModel2)
  ∧ staticRowSlice (((NodeBipartite.new true).before_reset exModel).extractObs exModel2) =
      staticRowSlice
        (((NodeBipartite.new false).before_reset exModel2).extractObs exModel2)) :=
  ⟨by decide, by decide,
   claim4_static_cache_agreement exModel exModel2 exModel (by decide) (by decide)⟩

end Ecole
